import Mathlib

/-!
# Verification of the Jotoba search core

A shallow embedding of the Jotoba dictionary search core:

* the Japanese text classifier (`src/japanese/mod.rs`),
* the reading matcher (`SearchMode::str_eq`, modelled from the spec since the
  implementation is not part of the sources under verification),
* the reading-link builder (`src/models/kanji/gen_readings.rs`),
* the kanji/word search orchestrator (`search/src/word/kanji.rs`).

Rust strings are modelled as lists of characters (`Str`); Rust `Vec` as
`List`; fallible storage access as explicit failure oracles; the per-run
dictionary cache as an association list.  Machine integers (`i32`) are
modelled as `Int` (no arithmetic that could overflow occurs in the embedded
code paths; ids and sequence numbers are only compared for equality or order).
-/

namespace Jotoba

/-- A Rust `String`/`&str`, modelled as its sequence of characters. -/
abbrev Str := List Char

/-- Rust `str::starts_with(char)`: the first character is `c`. -/
def startsWithChar (s : Str) (c : Char) : Bool := s.head? == some c

/-- Rust `str::ends_with(char)`: the last character is `c`. -/
def endsWithChar (s : Str) (c : Char) : Bool := s.getLast? == some c

/-- Rust `str::replace(pat, rep)` with a string pattern: replaces every
non-overlapping occurrence of `pat` left-to-right.  Implemented with explicit
fuel so that it is structurally recursive; the fuel `s.length` is always
sufficient.  An empty pattern leaves the string unchanged. -/
def replaceFuel (fuel : Nat) (s pat rep : Str) : Str :=
  match fuel, s with
  | 0, s => s
  | _ + 1, [] => []
  | fuel + 1, c :: rest =>
    if pat ≠ [] ∧ pat.isPrefixOf (c :: rest) then
      rep ++ replaceFuel fuel ((c :: rest).drop pat.length) pat rep
    else
      c :: replaceFuel fuel rest pat rep

/-- Rust `str::replace` (see `replaceFuel`). -/
def replaceStr (s pat rep : Str) : Str := replaceFuel s.length s pat rep

/-- Whether `a` occurs as a contiguous substring of `b`. -/
def isSubstrOf (a b : Str) : Bool :=
  match b with
  | [] => a.isEmpty
  | _ :: rest => a.isPrefixOf b || isSubstrOf a rest

/-! ## Text classifier (`src/japanese/mod.rs`)

Per-character predicates are inclusive codepoint-range tests; string-level
predicates fold them over all characters, mirroring the
`!self.chars().any(|s| !s.is_x())` / `self.chars().any(...)` shapes of the
source. -/

/-- The `CharType` enum from `src/japanese/mod.rs`. -/
inductive CharType where
  | Kana
  | Kanji
  | Other
deriving DecidableEq

namespace JpChar

/-- Rust `char::is_katakana`. -/
def is_katakana (c : Char) : Bool := decide (0x30A0 ≤ c.toNat ∧ c.toNat ≤ 0x30FF)

/-- Rust `char::is_hiragana`. -/
def is_hiragana (c : Char) : Bool := decide (0x3040 ≤ c.toNat ∧ c.toNat ≤ 0x309F)

/-- Rust `char::is_kana`. -/
def is_kana (c : Char) : Bool := is_hiragana c || is_katakana c

/-- Rust `char::is_roman_letter`. -/
def is_roman_letter (c : Char) : Bool :=
  decide ((0xFF01 ≤ c.toNat ∧ c.toNat ≤ 0xFF5A)
    ∨ (0x2000 ≤ c.toNat ∧ c.toNat ≤ 0x206F)
    ∨ (0x20000 ≤ c.toNat ∧ c.toNat ≤ 0x2A6DF)
    ∨ c.toNat = 0x2010
    ∨ c.toNat = 0x2212)

/-- Rust `char::is_kanji`. -/
def is_kanji (c : Char) : Bool :=
  decide ((0x3400 ≤ c.toNat ∧ c.toNat ≤ 0x4DBF)
    ∨ (0x4E00 ≤ c.toNat ∧ c.toNat ≤ 0x9FFF)
    ∨ (0xF900 ≤ c.toNat ∧ c.toNat ≤ 0xFAFF)
    ∨ (0xFF10 ≤ c.toNat ∧ c.toNat ≤ 0xFF19)
    ∨ (0x20000 ≤ c.toNat ∧ c.toNat ≤ 0x2A6DF)
    ∨ c.toNat = 0x29E8A)

/-- Rust `char::is_symbol`. -/
def is_symbol (c : Char) : Bool :=
  decide ((0x3000 ≤ c.toNat ∧ c.toNat ≤ 0x303F)
    ∨ (0x0370 ≤ c.toNat ∧ c.toNat ≤ 0x03FF)
    ∨ (0x25A0 ≤ c.toNat ∧ c.toNat ≤ 0x25FF)
    ∨ (0xFF00 ≤ c.toNat ∧ c.toNat ≤ 0xFFEF)
    ∨ c.toNat = 0x002D
    ∨ c.toNat = 0x3005
    ∨ c.toNat = 0x00D7)

/-- Rust `<char as JapaneseExt>::get_text_type`. -/
def get_text_type (c : Char) : CharType :=
  if is_kana c then CharType.Kana
  else if is_kanji c || is_roman_letter c then CharType.Kanji
  else CharType.Other

/-- Rust `char::kanji_count`. -/
def kanji_count (c : Char) : Nat := if is_kanji c then 1 else 0

end JpChar

namespace JpStr

/-- Rust `str::is_hiragana`. -/
def is_hiragana (s : Str) : Bool := !(s.any (fun c => !JpChar.is_hiragana c))

/-- Rust `str::is_katakana`. -/
def is_katakana (s : Str) : Bool := !(s.any (fun c => !JpChar.is_katakana c))

/-- Rust `str::is_kana`. -/
def is_kana (s : Str) : Bool := !(s.any (fun c => !JpChar.is_kana c))

/-- Rust `str::is_kanji`. -/
def is_kanji (s : Str) : Bool := !(s.any (fun c => !JpChar.is_kanji c))

/-- Rust `str::has_kanji`. -/
def has_kanji (s : Str) : Bool := s.any (fun c => JpChar.is_kanji c)

/-- Rust `<str as JapaneseExt>::get_text_type`. -/
def get_text_type (s : Str) : CharType :=
  if is_kanji s then CharType.Kanji
  else if is_kana s then CharType.Kana
  else CharType.Other

/-- Rust `str::kanji_count`: number of kanji characters. -/
def kanji_count (s : Str) : Nat := (s.filter (fun c => JpChar.is_kanji c)).length

end JpStr

/-! ## Reading matcher -/

/-- The `SearchMode` enum (as imported by `gen_readings.rs` and `search/src/word/kanji.rs`). -/
inductive SearchMode where
  | Exact
  | Variable
  | LeftVariable
  | RightVariable
deriving DecidableEq

/-- Modelled from the spec: `SearchMode::str_eq` — the Reading Matcher — whose
implementation is not among the sources under verification.  Spec §4.2,
`matches(mode, text_a, text_b)`: `Exact` is equality; `LeftVariable` holds when
`text_a` equals a suffix of `text_b`; `RightVariable` when `text_a` equals a
prefix of `text_b`; `Variable` when `text_a` is a contiguous substring of
`text_b`.  The source's third argument (case-insensitivity) is `false` at
every call site in the embedded code and is omitted. -/
def SearchMode.str_eq : SearchMode → Str → Str → Bool
  | .Exact, a, b => a == b
  | .LeftVariable, a, b => a.isSuffixOf b
  | .RightVariable, a, b => a.isPrefixOf b
  | .Variable, a, b => isSubstrOf a b

/-- The `ReadingType` tag from `models/kanji` (referenced by the embedded sources;
a plain two-variant tag per spec §3). -/
inductive ReadingType where
  | Kunyomi
  | Onyomi
deriving DecidableEq

/-- The error taxonomy of `src/error.rs`, restricted to the variants reachable
from the embedded code paths; payloads are collapsed to numeric codes. -/
inductive Error where
  | ParseError
  | Undefined
  | DbError (code : Nat)
  | Checkout (code : Nat)
deriving DecidableEq

/-! ## Utility collaborators (`utils`)

These live in `utils` (outside the sources under verification) and are
modelled from the spec where it describes them. -/

/-- Modelled from the spec: `utils::real_string_len` — the character count of
a string (spec §4.3 step 4 speaks of "character length"). -/
def real_string_len (s : Str) : Nat := s.length

/-- Modelled from the spec: `utils::to_option` — an empty list becomes
`none`, a non-empty list is kept (a kanji yielding zero candidates gets no
entry; spec §4.3 failure semantics). -/
def to_option (l : List α) : Option (List α) :=
  if l.isEmpty then none else some l

/-- Rust `utils::invert_ordering`: swaps `Less` and `Greater`. -/
def invert_ordering : Ordering → Ordering
  | .lt => .gt
  | .eq => .eq
  | .gt => .lt

/-- Rust `i32::cmp`. -/
def int_cmp (a b : Int) : Ordering :=
  if a < b then .lt else if b < a then .gt else .eq

/-- Modelled from the spec: `utils::get_item_order` — spec §4.3 tie-break (a):
"among two such candidates, preserve the kanji's own declared reading order".
The element found first in `vec` orders first; equal items compare equal;
`none` when neither occurs. -/
def get_item_order (vec : List Str) (a b : Str) : Option Ordering :=
  if a = b then some .eq else go vec
where
  go : List Str → Option Ordering
    | [] => none
    | x :: xs => if x = a then some .lt else if x = b then some .gt else go xs

/-- Modelled from the spec: `utils::remove_dups` — deduplication keeping the
first occurrence, order preserved as encountered (spec §4.4 and §8). -/
def remove_dups [DecidableEq α] (l : List α) : List α := go [] l
where
  go (seen : List α) : List α → List α
    | [] => []
    | x :: xs => if x ∈ seen then go seen xs else x :: go (x :: seen) xs

/-- Rust `Vec::sort_by`: a stable sort by a three-way comparator.  Modelled as a
stable insertion sort: an element is inserted after every earlier element the
comparator does not place strictly after it. -/
def sort_by (cmp : α → α → Ordering) : List α → List α
  | [] => []
  | x :: xs => insertCmp cmp x (sort_by cmp xs)
where
  insertCmp (cmp : α → α → Ordering) (x : α) : List α → List α
    | [] => [x]
    | y :: ys => if cmp x y = .gt then y :: insertCmp cmp x ys else x :: y :: ys

theorem sort_by_length (cmp : α → α → Ordering) (l : List α) :
    (sort_by cmp l).length = l.length := by
  induction l with
  | nil => rfl
  | cons x xs ih =>
    have hins : ∀ (m : List α), (sort_by.insertCmp cmp x m).length = m.length + 1 := by
      intro m
      induction m with
      | nil => rfl
      | cons y ys ihm =>
        simp only [sort_by.insertCmp]
        split <;> simp [ihm]
    simp [sort_by, hins, ih]

/-! ## Reading-link builder: pure parts (`src/models/kanji/gen_readings.rs`) -/

/-- The `Dict` row of `models/dict` as used by the embedded code.  The struct
itself is defined outside the sources under verification; its fields are the
ones spec §3 lists for a `DictEntry` (sequence ID, reading text, is-kanji-form
flag, optional priority markers, optional proficiency-level integer) plus the
row id the code orders fetches by. -/
structure Dict where
  id : Int
  sequence : Int
  reading : Str
  kanji : Bool
  priorities : Option (List Str)
  jlpt_lvl : Option Int
deriving DecidableEq

/-- Modelled from the spec: `Dict::len` — the character length of the row's
reading (spec §4.3 step 4: "the kana-form reading's character length"). -/
def Dict.len (d : Dict) : Nat := real_string_len d.reading

/-- Modelled from the spec: `models::kanji::format_reading` — strips the `-`
literal-boundary marker and the `.` inflection separator from a raw reading
(spec §4.3 step 4: "after stripping the literal-boundary marker and trailing
inflection marker introduced by a dot separator"). -/
def format_reading (r : Str) : Str := r.filter (fun c => c ≠ '-' ∧ c ≠ '.')

/-- Rust `gen_readings::literal_reading`: remove all `-`, then keep everything
before the first `.` (`kun.replace('-', "").split('.').next().unwrap()`). -/
def literal_reading (kun : Str) : Str :=
  (kun.filter (fun c => c ≠ '-')).takeWhile (fun c => c ≠ '.')

/-- Rust `gen_readings::len`: character count of the formatted reading. -/
def len (kun : Str) : Nat := real_string_len (format_reading kun)

/-- The match-mode selection performed at the top of
`gen_readings::matches_kanji`. -/
def kanji_match_mode (literal kun kanji_reading : Str) : SearchMode :=
  if startsWithChar kun '-' then SearchMode.RightVariable
  else if endsWithChar kun '-' || literal.isPrefixOf kanji_reading then SearchMode.LeftVariable
  else SearchMode.Exact

/-- Rust `gen_readings::matches_kanji`.  `kanji_out` starts as the reading with all
`-` removed; when the reading contains a `.`, the prefix up to and including
the dot (taken from the raw reading) is replaced by the literal, otherwise
`kanji_out` is the literal itself; finally every occurrence of the literal is
replaced by `literal_reading kun`, and the kana reading is compared under the
selected mode. -/
def matches_kanji (literal kun kana_reading kanji_reading : Str) : Bool :=
  let match_mode := kanji_match_mode literal kun kanji_reading
  let kanji_out := kun.filter (fun c => c ≠ '-')
  let kanji_out :=
    if kun.contains '.' then
      replaceStr kanji_out ((kun.takeWhile (fun c => c ≠ '.')) ++ ['.']) literal
    else
      literal
  let kanji_out := replaceStr kanji_out literal (literal_reading kun)
  match_mode.str_eq kana_reading kanji_out

/-! ### The kun tie-break comparator `order_kuns`

The tokenizer is an optional collaborator (`#[cfg(feature = "tokenizer")]`);
it is modelled as an optional morpheme-count function `tok`. -/

/-- The lexical-priority / proficiency-level tail of `order_kuns` (the part
after the own-reading and tokenizer criteria). -/
def order_kuns_prio (a b : Dict) : Ordering :=
  let a_prio := (a.priorities.map List.length).getD 0
  let b_prio := (b.priorities.map List.length).getD 0
  if a_prio > 0 ∧ b_prio = 0 then .lt
  else if b_prio > 0 ∧ a_prio = 0 then .gt
  else
    match a.jlpt_lvl, b.jlpt_lvl with
    | some _, none => .lt
    | none, some _ => .gt
    | some a_jlpt, some b_jlpt => invert_ordering (int_cmp a_jlpt b_jlpt)
    | none, none => .eq

/-- The tokenizer criterion of `order_kuns` followed by the tail; compiled in
only under the `tokenizer` feature, hence the optional `tok`. -/
def order_kuns_tok (tok : Option (Str → Nat)) (a b : Dict) : Ordering :=
  match tok with
  | none => order_kuns_prio a b
  | some parse =>
    let a_parsed := parse a.reading
    let b_parsed := parse b.reading
    if a_parsed = 1 ∧ b_parsed > 0 then .lt
    else if a_parsed > 1 ∧ b_parsed = 0 then .gt
    else order_kuns_prio a b

/-- Rust `gen_readings::order_kuns`.  When both readings occur among the kanji's
own cleaned kun readings and `get_item_order` is decisive, that order wins;
when exactly one occurs, it wins; otherwise control falls through to the
tokenizer / priority / proficiency criteria. -/
def order_kuns (tok : Option (Str → Nat)) (a b : Dict) (clean_kuns : List Str) : Ordering :=
  let a_kunr := clean_kuns.contains a.reading
  let b_kunr := clean_kuns.contains b.reading
  if a_kunr && b_kunr then
    match get_item_order clean_kuns a.reading b.reading with
    | some order => order
    | none => order_kuns_tok tok a b
  else if a_kunr && !b_kunr then .lt
  else if !a_kunr && b_kunr then .gt
  else order_kuns_tok tok a b

/-! ## Search orchestrator: narrow-search mode choice (`search/src/word/kanji.rs`) -/

/-- The mode chosen by `by_reading` for the first (narrow) lookup:
`LeftVariable` when the reading starts with `-`, `RightVariable` otherwise. -/
def narrow_mode (reading : Str) : SearchMode :=
  if startsWithChar reading '-' then SearchMode.LeftVariable
  else SearchMode.RightVariable

/-! ## `find_kun_readings` (`gen_readings.rs`)

The database is modelled by the list of `Dict` rows; the two SQL queries of
`find_kun_readings` become list filters.  The per-run cache
(`HashMap<i32, Dict>` keyed by sequence id) is an association list whose
lookup takes the most recent insertion, matching the overwrite semantics of
`HashMap::insert`. -/

/-- The per-run dictionary cache keyed by sequence id. -/
abbrev Cache := List (Int × Dict)

/-- Rust `HashMap::get` (most recent insertion wins). -/
def cacheGet (cache : Cache) (i : Int) : Option Dict :=
  (cache.find? (fun p => p.1 = i)).map (·.2)

/-- The first query: `SELECT sequence FROM dict WHERE reading LIKE '<literal>%' AND kanji = true`,
in table order. -/
def litPrefixSeqs (dicts : List Dict) (literal : Str) : List Int :=
  (dicts.filter (fun d => literal.isPrefixOf d.reading && d.kanji)).map (·.sequence)

/-- The second query: all rows whose sequence is among the uncached sequence
ids, ordered by row id (`order_by(id)`). -/
def fetchBySeqs (dicts : List Dict) (seqs : List Int) : List Dict :=
  sort_by (fun a b => int_cmp a.id b.id) (dicts.filter (fun d => seqs.contains d.sequence))

/-- Rust `Itertools::group_by(|i| i.sequence)`: maximal runs of consecutive rows
sharing a sequence id. -/
def seqGroups : List Dict → List (List Dict)
  | [] => []
  | d :: ds =>
    match seqGroups ds with
    | [] => [[d]]
    | [] :: gs => [d] :: [] :: gs
    | (e :: g) :: gs =>
      if d.sequence = e.sequence then (d :: e :: g) :: gs else [d] :: (e :: g) :: gs

/-- The list of rows `find_kun_readings` iterates over: freshly fetched rows
followed by the cached ones (`dicts.into_iter().chain(cached)`), given the
full dict table, the literal and the incoming cache. -/
def assembleDicts (dicts : List Dict) (literal : Str) (cache : Cache) : List Dict :=
  let seq_ids := litPrefixSeqs dicts literal
  let cached := seq_ids.filterMap (fun i => cacheGet cache i)
  let uncached := seq_ids.filter (fun i => (cacheGet cache i).isNone)
  let fetched := fetchBySeqs dicts uncached
  fetched ++ cached

/-- The cache after `find_kun_readings` inserted every freshly fetched row
(`cache.insert(d.sequence, d.clone())`, later rows overwriting earlier). -/
def updateCache (dicts : List Dict) (literal : Str) (cache : Cache) : Cache :=
  let seq_ids := litPrefixSeqs dicts literal
  let uncached := seq_ids.filter (fun i => (cacheGet cache i).isNone)
  (fetchBySeqs dicts uncached).foldl (fun c d => (d.sequence, d) :: c) cache

/-- The per-group loop body of `find_kun_readings`: for every group the rows
are partitioned into kanji-form and kana-form; a group without a kanji-form
row is skipped; otherwise `kana_r[0]` is indexed unconditionally — `none`
models the resulting out-of-bounds panic when the group has no kana-form row.
A group contributes its kanji-form row when some kun reading matches it. -/
def groupsStep (literal : Str) (kun : List Str) : List (List Dict) → Option (List Dict)
  | [] => some []
  | g :: gs =>
    let kanji_r := g.filter (fun d => d.kanji)
    let kana_r := g.filter (fun d => !d.kanji)
    match kanji_r with
    | [] => groupsStep literal kun gs
    | dict_kanji :: _ =>
      match kana_r with
      | [] => none
      | dict_kana :: _ =>
        match groupsStep literal kun gs with
        | none => none
        | some rest =>
          if kun.any (fun ku =>
              matches_kanji literal ku dict_kana.reading dict_kanji.reading
                && decide (len ku ≤ dict_kana.len)) then
            some (dict_kanji :: rest)
          else
            some rest

/-- Rust `gen_readings::find_kun_readings` with the storage calls replaced by list
queries over the dict table.  Returns `none` on the `kana_r[0]` out-of-bounds
panic; otherwise the sequence ids of the (possibly sorted and truncated)
candidate rows together with the updated cache. -/
def find_kun_readings (tok : Option (Str → Nat)) (dicts : List Dict)
    (literal : Str) (kun : List Str) (cache : Cache) : Option (List Int × Cache) :=
  match groupsStep literal kun (seqGroups (assembleDicts dicts literal cache)) with
  | none => none
  | some kuns =>
    let clean_kuns := kun.map literal_reading
    let kuns :=
      if kuns.length > 10 then
        (sort_by (fun a b => order_kuns tok a b clean_kuns) kuns).take 10
      else kuns
    some (kuns.map (·.sequence), updateCache dicts literal cache)

/-! ## `update_links` (`gen_readings.rs`)

The kanji table and the dict table form the storage state `DB`.  Storage
failures are injected through an `Oracle`: one optional error per operation
(the initial link clearing, the kanji select, the per-kanji kun candidate
lookup, the per-kanji kun-link update, the per-kanji on-reading lookup and
on-link update).  `find_readings_by_liteal`, called by the on-reading phase,
lives outside the sources under verification and is modelled from the spec as
an abstract deterministic lookup `on_find : literal → reading → sequence ids`
(spec §6 `findReadings`, §4.3 step 6: exact matching only).

A `kana_r[0]` out-of-bounds panic inside `find_kun_readings` aborts the whole
process; it is a third outcome (`RunResult.panic`) distinct from a propagated
error, because the `unwrap_or_default()` at the call site swallows only
`Err` values. -/

/-- One row of the `kanji` table, as selected and updated by `update_links`. -/
structure KanjiRow where
  id : Int
  literal : Str
  kunyomi : Option (List Str)
  onyomi : Option (List Str)
  kun_dicts : Option (List Int)
  on_dicts : Option (List Int)
deriving DecidableEq

/-- The fields of a kanji row that `update_links` reads
(`select((id, literal, kunyomi, onyomi))`). -/
structure KStat where
  id : Int
  literal : Str
  kunyomi : Option (List Str)
  onyomi : Option (List Str)
deriving DecidableEq

/-- The storage state: the kanji table and the dict table. -/
structure DB where
  kanji_rows : List KanjiRow
  dict_rows : List Dict
deriving DecidableEq

/-- The `(id, literal, kunyomi, onyomi)` projection of the kanji table. -/
def kanji_statics (db : DB) : List KStat :=
  db.kanji_rows.map (fun k => ⟨k.id, k.literal, k.kunyomi, k.onyomi⟩)

/-- Failure injection and external collaborators for one rebuild run. -/
structure Oracle where
  clear_fail : Option Error
  select_fail : Option Error
  kun_find_fail : Int → Option Error
  update_kun_fail : Int → Option Error
  on_find : Str → Str → List Int
  on_find_fail : Int → Option Error
  update_on_fail : Int → Option Error
  tok : Option (Str → Nat)

/-- Outcome of a rebuild run: a panic aborts the process, an error is
propagated to the caller, otherwise the new storage state. -/
inductive RunResult (α : Type) where
  | panic : RunResult α
  | err : Error → RunResult α
  | ok : α → RunResult α
deriving DecidableEq

/-- The kun phase of `update_links`: for every kanji with a non-empty kun
reading list, run `find_kun_readings` (threading the per-run cache), swallow
a storage failure via `unwrap_or_default()`, and keep `(id, ids)` only when
`to_option` finds the candidate list non-empty.  A panic propagates. -/
def kun_phase (o : Oracle) (dicts : List Dict) :
    List KStat → Cache → Option (List (Int × List Int))
  | [], _ => some []
  | s :: rest, cache =>
    match s.kunyomi with
    | none => kun_phase o dicts rest cache
    | some kuns =>
      if kuns.isEmpty then kun_phase o dicts rest cache
      else
        match o.kun_find_fail s.id with
        | some _ => kun_phase o dicts rest cache
        | none =>
          match find_kun_readings o.tok dicts s.literal kuns cache with
          | none => none
          | some (ids, cache') =>
            match kun_phase o dicts rest cache' with
            | none => none
            | some restres =>
              match to_option ids with
              | none => some restres
              | some r => some ((s.id, r) :: restres)

/-- The error of the first failing `update_kun_link` call, if any
(`try_join_all` over the computed kun links). -/
def first_update_kun_fail (o : Oracle) : List (Int × List Int) → Option Error
  | [] => none
  | (i, _) :: rest =>
    match o.update_kun_fail i with
    | some e => some e
    | none => first_update_kun_fail o rest

/-- The on phase of `update_links` (`find_on_readings` per kanji with a
non-empty on reading list): look up every on reading, concatenate; an empty
result issues no update; otherwise the first 9 ids are written.  Lookup and
update failures propagate. -/
def on_phase (o : Oracle) : List KStat → Except Error (List (Int × List Int))
  | [] => .ok []
  | s :: rest =>
    match s.onyomi with
    | none => on_phase o rest
    | some ons =>
      if ons.isEmpty then on_phase o rest
      else
        match o.on_find_fail s.id with
        | some e => .error e
        | none =>
          let found := (ons.map (fun onr => o.on_find s.literal onr)).flatten
          if found.isEmpty then on_phase o rest
          else
            match o.update_on_fail s.id with
            | some e => .error e
            | none =>
              match on_phase o rest with
              | .error e => .error e
              | .ok r => .ok ((s.id, found.take 9) :: r)

/-- Look up the link list computed for a kanji id. -/
def lookupLinks (l : List (Int × List Int)) (i : Int) : Option (List Int) :=
  (l.find? (fun p => p.1 = i)).map (·.2)

/-- The net effect on the kanji table of `clear_links` followed by the
per-kanji `update_kun_link` / `update_on_link` writes: every row's link
fields are replaced wholesale — rows with no computed entry keep the cleared
`none`. -/
def apply_links (A B : List (Int × List Int)) (db : DB) : DB :=
  { db with
    kanji_rows := db.kanji_rows.map (fun k =>
      { k with kun_dicts := lookupLinks A k.id, on_dicts := lookupLinks B k.id }) }

/-- Rust `gen_readings::update_links`: clear all links, select the kanji table,
compute and write the kun links (per-kanji lookup failures swallowed, update
failures propagated), then compute and write the on links (all failures
propagated). -/
def update_links (o : Oracle) (db : DB) : RunResult DB :=
  match o.clear_fail with
  | some e => .err e
  | none =>
    match o.select_fail with
    | some e => .err e
    | none =>
      match kun_phase o db.dict_rows (kanji_statics db) [] with
      | none => .panic
      | some A =>
        match first_update_kun_fail o A with
        | some e => .err e
        | none =>
          match on_phase o (kanji_statics db) with
          | .error e => .err e
          | .ok B => .ok (apply_links A B db)

/-! ## Kanji/word search orchestrator (`search/src/word/kanji.rs`)

The dictionary-lookup collaborator, the word loader, the injected ranking
comparator and the generic word-search fallback are abstract fields of a
`SearchCtx`; `by_reading` is the faithful control flow over them. -/

/-- Rust `query::KanjiReading`: the literal under search plus the target reading. -/
structure KanjiReading where
  literal : Str
  reading : Str
deriving DecidableEq

/-- The kanji record fields used by `by_reading` (spec §3 `KanjiRecord`,
restricted to what the orchestrator reads). -/
structure KanjiRec where
  literal : Str
  kunyomi : List Str
  onyomi : List Str
deriving DecidableEq

/-- Modelled from the spec: `Kanji::get_reading_type` (defined outside the
sources under verification) — spec §4.4 PrimaryLookup: "determine the
reading's declared type (kun/on) by membership test against the record's
reading lists". -/
def get_reading_type (k : KanjiRec) (r : Str) : Option ReadingType :=
  if k.kunyomi.contains r then some ReadingType.Kunyomi
  else if k.onyomi.contains r then some ReadingType.Onyomi
  else none

/-- Modelled from the spec: `Kanji::has_reading` — membership of the reading
in either reading list (spec §4.4 PrimaryLookup). -/
def has_reading (k : KanjiRec) (r : Str) : Bool :=
  k.kunyomi.contains r || k.onyomi.contains r

/-- A loaded word result; `reading.kanji` is the optional kanji-form `Dict`
row of the word (the only field the embedded code reads). -/
structure WordReading where
  kanji : Option Dict
deriving DecidableEq

/-- Rust `result::Word`, restricted to the fields the embedded code reads. -/
structure Word where
  reading : WordReading
deriving DecidableEq

/-- Modelled from the spec: the orchestrator's `ResultData` — the ranked word
list and the pre-truncation count; the remaining result fields are collapsed
into one default-empty field (spec §4.4 Done: "all other result fields
default to empty/zero"). -/
structure ResultData where
  words : List Word := []
  count : Nat := 0
  other_fields : List Str := []
deriving DecidableEq

/-- The collaborators of one kanji-reading search request. -/
structure SearchCtx where
  as_kanji_reading : Option KanjiReading
  find_by_literal : Except Error KanjiRec
  find_readings : ReadingType → SearchMode → Bool → Except Error (List Int)
  load_words : List Int → Except Error (List Word)
  rank_cmp : Word → Word → Ordering
  alternative : Except Error ResultData

/-- The LoadAndRank tail of `by_reading`: bulk-load the words, sort them with
the injected comparator, record the pre-truncation count, truncate to 10, and
return a `ResultData` whose remaining fields are defaults. -/
def load_and_rank (ctx : SearchCtx) (seq_ids : List Int) : Except Error ResultData :=
  match ctx.load_words seq_ids with
  | .error e => .error e
  | .ok w =>
    let w := sort_by ctx.rank_cmp w
    let count := w.length
    .ok { words := w.take 10, count := count }

/-- Rust `kanji::by_reading`: the search state machine of spec §4.4 over one
request. -/
def by_reading (ctx : SearchCtx) : Except Error ResultData :=
  match ctx.as_kanji_reading with
  | none => .error Error.Undefined
  | some reading =>
    match ctx.find_by_literal with
    | .error e => .error e
    | .ok k =>
      match get_reading_type k reading.reading with
      | none => ctx.alternative
      | some reading_type =>
        if !has_reading k reading.reading then ctx.alternative
        else
          match ctx.find_readings reading_type (narrow_mode reading.reading) true with
          | .error e => .error e
          | .ok first_ids =>
            match (if first_ids.length ≤ 2 then
                     ctx.find_readings reading_type SearchMode.Variable false
                   else .ok first_ids) with
            | .error e => .error e
            | .ok seq_ids =>
              if seq_ids.isEmpty then ctx.alternative
              else load_and_rank ctx seq_ids

/-! ### `load_word_kanji_info` / `get_kanji_words` -/

/-- A kanji-info record as returned by `load_kanji_info` /
`find_by_literal`; only its identity matters to the embedded code
(deduplication), so it is collapsed to its kanji id. -/
structure KanjiResult where
  kid : Int
deriving DecidableEq

/-- The collaborators of `load_word_kanji_info`. -/
structure KanjiInfoCtx where
  query : Str
  load_kanji_info : Dict → Except Error (List KanjiResult)
  find_by_literal_char : Char → Except Error KanjiResult

/-- Rust `kanji::get_kanji_words`: the kanji-form `Dict` rows of the first 10
words that have one. -/
def get_kanji_words (words : List Word) : List Dict :=
  (words.filterMap (fun w => w.reading.kanji)).take 10

/-- Rust `kanji::load_word_kanji_info`: load the kanji info of every kanji-bearing
word (or, when none exists, of every kanji character of the raw query),
deduplicate, and cap at the larger of the first kanji-bearing word's kanji
count and the word count. -/
def load_word_kanji_info (ctx : KanjiInfoCtx) (words : List Word) :
    Except Error (List KanjiResult) :=
  let kanji_words := get_kanji_words words
  let retrieved :=
    if !kanji_words.isEmpty then
      (kanji_words.mapM (fun w => ctx.load_kanji_info w)).map List.flatten
    else
      (ctx.query.filter (fun c => JpChar.is_kanji c)).mapM
        (fun c => ctx.find_by_literal_char c)
  match retrieved with
  | .error e => .error e
  | .ok retrieved =>
    let limit :=
      match kanji_words with
      | kw :: _ =>
        if JpStr.kanji_count kw.reading > words.length then JpStr.kanji_count kw.reading
        else words.length
      | [] => words.length
    .ok ((remove_dups retrieved).take limit)

/-! ## Claim C9: full-width roman letters and `get_text_type` -/

/-- A full-width roman *letter* codepoint (U+FF21–U+FF3A or U+FF41–U+FF5A). -/
def fw_roman_letter (c : Char) : Prop :=
  (0xFF21 ≤ c.toNat ∧ c.toNat ≤ 0xFF3A) ∨ (0xFF41 ≤ c.toNat ∧ c.toNat ≤ 0xFF5A)

instance (c : Char) : Decidable (fw_roman_letter c) := by
  unfold fw_roman_letter; infer_instance

/-- C9 (counterexample): the claim asserts that the *string-level*
`get_text_type` also classifies a string made solely of full-width roman
letters as `Kanji`; at the concrete input `"Ａ"` the character-level
classifier returns `Kanji` but the string-level classifier returns `Other`,
refuting the claim as stated. -/
theorem c9_str_counterexample :
    JpChar.get_text_type 'Ａ' = CharType.Kanji ∧
    JpChar.is_kanji 'Ａ' = false ∧
    JpStr.get_text_type ['Ａ'] = CharType.Other := by
  refine ⟨by decide, by decide, by decide⟩

/-- C9 (amended): for every full-width roman letter the *character-level*
`get_text_type` returns `Kanji` even though `is_kanji` is false for it; the
*string-level* `get_text_type` on a non-empty string consisting solely of
such characters returns `Other` (the quirk applies only to the per-character
classifier). -/
theorem c9_fullwidth_roman (c : Char) (s : Str)
    (hc : fw_roman_letter c) (hs : s ≠ [])
    (hall : ∀ d ∈ s, fw_roman_letter d) :
    JpChar.get_text_type c = CharType.Kanji ∧
    JpChar.is_kanji c = false ∧
    JpStr.get_text_type s = CharType.Other := by
  have hkanji : ∀ d, fw_roman_letter d → JpChar.is_kanji d = false := by
    intro d hd
    simp only [JpChar.is_kanji, decide_eq_false_iff_not]
    unfold fw_roman_letter at hd
    omega
  have hkana : ∀ d, fw_roman_letter d → JpChar.is_kana d = false := by
    intro d hd
    simp only [JpChar.is_kana, JpChar.is_hiragana, JpChar.is_katakana,
      Bool.or_eq_false_iff, decide_eq_false_iff_not]
    unfold fw_roman_letter at hd
    constructor <;> omega
  have hroman : JpChar.is_roman_letter c = true := by
    simp only [JpChar.is_roman_letter, decide_eq_true_eq]
    unfold fw_roman_letter at hc
    omega
  refine ⟨?_, hkanji c hc, ?_⟩
  · simp [JpChar.get_text_type, hkana c hc, hroman]
  · match s, hs with
    | d :: rest, _ =>
      have hd := hall d (by simp)
      have h1 : JpStr.is_kanji (d :: rest) = false := by
        simp [JpStr.is_kanji, hkanji d hd]
      have h2 : JpStr.is_kana (d :: rest) = false := by
        simp [JpStr.is_kana, hkana d hd]
      simp [JpStr.get_text_type, h1, h2]

/-- C9 (witness): the amended statement at the concrete inputs `'Ａ'` and
`"ａ"`. -/
theorem c9_fullwidth_roman_witness :
    JpChar.get_text_type 'Ａ' = CharType.Kanji ∧
    JpChar.is_kanji 'Ａ' = false ∧
    JpStr.get_text_type ['ａ'] = CharType.Other :=
  c9_fullwidth_roman 'Ａ' ['ａ'] (by decide) (by decide) (by decide)

/-! ## Claim C1: match-mode selection -/

/-- C1 (counterexample): the claim maps a reading beginning with `-` to
`LeftVariable` and "otherwise" to `Exact` for both callers.  In the builder,
`matches_kanji` maps `-べる` to `RightVariable`; in the orchestrator's narrow
search, the plain reading `べる` gets `RightVariable`, never `Exact`. -/
theorem c1_mode_counterexample :
    kanji_match_mode "食".toList "-べる".toList "食べる".toList ≠ SearchMode.LeftVariable ∧
    kanji_match_mode "食".toList "-べる".toList "食べる".toList = SearchMode.RightVariable ∧
    narrow_mode "べる".toList ≠ SearchMode.Exact ∧
    narrow_mode "べる".toList = SearchMode.RightVariable := by
  refine ⟨by decide, by decide, by decide, by decide⟩

/-- C1 (amended): in the builder's `matches_kanji`, a reading beginning with
`-` selects `RightVariable`; a reading ending with `-`, or whose kanji-form
reading starts with the literal, selects `LeftVariable`; otherwise `Exact`.
The orchestrator's narrow search selects `LeftVariable` for readings
beginning with `-` and `RightVariable` for every other reading (never
`Exact`); `Variable` remains the explicit widening fallback of the second
pass. -/
theorem c1_mode_selection (literal kun kanji_reading r : Str) :
    (startsWithChar kun '-' = true →
      kanji_match_mode literal kun kanji_reading = SearchMode.RightVariable)
  ∧ (startsWithChar kun '-' = false →
      (endsWithChar kun '-' = true ∨ literal.isPrefixOf kanji_reading = true) →
      kanji_match_mode literal kun kanji_reading = SearchMode.LeftVariable)
  ∧ (startsWithChar kun '-' = false → endsWithChar kun '-' = false →
      literal.isPrefixOf kanji_reading = false →
      kanji_match_mode literal kun kanji_reading = SearchMode.Exact)
  ∧ (startsWithChar r '-' = true → narrow_mode r = SearchMode.LeftVariable)
  ∧ (startsWithChar r '-' = false → narrow_mode r = SearchMode.RightVariable) := by
  refine ⟨?_, ?_, ?_, ?_, ?_⟩
  · intro h; simp [kanji_match_mode, h]
  · rintro h (h2 | h2) <;> simp [kanji_match_mode, h, h2]
  · intro h h2 h3; simp [kanji_match_mode, h, h2, h3]
  · intro h; simp [narrow_mode, h]
  · intro h; simp [narrow_mode, h]

/-- C1 (witness): the amended rule at the concrete reading `-べる` for both
callers. -/
theorem c1_mode_selection_witness :
    kanji_match_mode "食".toList "-べる".toList "食べる".toList = SearchMode.RightVariable ∧
    narrow_mode "-べる".toList = SearchMode.LeftVariable :=
  ⟨(c1_mode_selection "食".toList "-べる".toList "食べる".toList "-べる".toList).1
      (by decide),
   (c1_mode_selection "食".toList "-べる".toList "食べる".toList "-べる".toList).2.2.2.1
      (by decide)⟩

/-! ## Claim C5: the priority / proficiency tail of `order_kuns`

`jlpt_lvl` stores the JLPT tier number N (1–5); N5, conventionally called the
*lowest* tier, is the most basic and is the numerically *largest* stored
value.  "The lower (more basic) level orders first" therefore reads as: the
candidate with the numerically greater `jlpt_lvl` orders first, which is what
`invert_ordering (a_jlpt.cmp b_jlpt)` implements. -/

/-- C5: when neither reading is among the kanji's cleaned kun readings and
the tokenizer criterion is not decisive, a candidate with at least one
priority marker orders strictly before one with none; when the priority
criterion is not decisive, a candidate with a known JLPT level orders before
one without, among two known levels the more basic (numerically greater,
i.e. lower JLPT tier) orders first, and otherwise the candidates compare
equal. -/
theorem c5_tiebreak (tok : Option (Str → Nat)) (a b : Dict) (clean_kuns : List Str)
    (ha : clean_kuns.contains a.reading = false)
    (hb : clean_kuns.contains b.reading = false)
    (htok : ∀ tokenize, tok = some tokenize →
      ¬(tokenize a.reading = 1 ∧ tokenize b.reading > 0) ∧
      ¬(tokenize a.reading > 1 ∧ tokenize b.reading = 0)) :
    (((a.priorities.map List.length).getD 0 > 0 ∧ (b.priorities.map List.length).getD 0 = 0 →
        order_kuns tok a b clean_kuns = .lt)
  ∧ ((a.priorities.map List.length).getD 0 = 0 ∧ (b.priorities.map List.length).getD 0 > 0 →
        order_kuns tok a b clean_kuns = .gt)
  ∧ (((a.priorities.map List.length).getD 0 > 0 ↔ (b.priorities.map List.length).getD 0 > 0) →
      ((a.jlpt_lvl.isSome = true ∧ b.jlpt_lvl = none → order_kuns tok a b clean_kuns = .lt)
     ∧ (a.jlpt_lvl = none ∧ b.jlpt_lvl.isSome = true → order_kuns tok a b clean_kuns = .gt)
     ∧ (∀ la lb, a.jlpt_lvl = some la → b.jlpt_lvl = some lb →
         ((lb < la → order_kuns tok a b clean_kuns = .lt)
        ∧ (la < lb → order_kuns tok a b clean_kuns = .gt)
        ∧ (la = lb → order_kuns tok a b clean_kuns = .eq)))
     ∧ (a.jlpt_lvl = none → b.jlpt_lvl = none → order_kuns tok a b clean_kuns = .eq)))) := by
  have hmain : order_kuns tok a b clean_kuns = order_kuns_prio a b := by
    have ha' : a.reading ∉ clean_kuns := by simpa using ha
    have hb' : b.reading ∉ clean_kuns := by simpa using hb
    have h1 : order_kuns tok a b clean_kuns = order_kuns_tok tok a b := by
      simp [order_kuns, ha', hb']
    rw [h1]
    cases tok with
    | none => rfl
    | some tokenize =>
      have h := htok tokenize rfl
      simp [order_kuns_tok, h.1, h.2]
  rw [hmain]
  refine ⟨?_, ?_, ?_⟩
  · rintro ⟨hap, hbp⟩
    simp only [order_kuns_prio]
    rw [if_pos ⟨hap, hbp⟩]
  · rintro ⟨hap, hbp⟩
    simp only [order_kuns_prio]
    rw [if_neg (by omega), if_pos ⟨hbp, hap⟩]
  · intro hiff
    have hn1 : ¬((a.priorities.map List.length).getD 0 > 0 ∧
        (b.priorities.map List.length).getD 0 = 0) := by
      rintro ⟨x, y⟩; have := hiff.mp x; omega
    have hn2 : ¬((b.priorities.map List.length).getD 0 > 0 ∧
        (a.priorities.map List.length).getD 0 = 0) := by
      rintro ⟨x, y⟩; have := hiff.mpr x; omega
    refine ⟨?_, ?_, ?_, ?_⟩
    · rintro ⟨hja, hjb⟩
      rcases Option.isSome_iff_exists.mp hja with ⟨la, hla⟩
      simp only [order_kuns_prio]
      rw [if_neg hn1, if_neg hn2, hla, hjb]
    · rintro ⟨hja, hjb⟩
      rcases Option.isSome_iff_exists.mp hjb with ⟨lb, hlb⟩
      simp only [order_kuns_prio]
      rw [if_neg hn1, if_neg hn2, hja, hlb]
    · intro la lb hla hlb
      refine ⟨?_, ?_, ?_⟩ <;> intro hlt <;> simp only [order_kuns_prio] <;>
        rw [if_neg hn1, if_neg hn2, hla, hlb] <;>
        simp only [int_cmp, invert_ordering]
      · rw [if_neg (by omega), if_pos hlt]
      · rw [if_pos hlt]
      · rw [if_neg (by omega), if_neg (by omega)]
    · intro hja hjb
      simp only [order_kuns_prio]
      rw [if_neg hn1, if_neg hn2, hja, hjb]

/-- C5 (witness): the priority-marker criterion at a concrete pair of
candidate rows. -/
theorem c5_tiebreak_witness :
    order_kuns none
      ⟨1, 1, "x".toList, true, some ["news1".toList], none⟩
      ⟨2, 2, "y".toList, true, none, none⟩ [] = Ordering.lt :=
  (c5_tiebreak none
      ⟨1, 1, "x".toList, true, some ["news1".toList], none⟩
      ⟨2, 2, "y".toList, true, none, none⟩ []
      rfl rfl (fun _ h => by cases h)).1 ⟨by decide, rfl⟩

/-! ## Claim C10: totality of `find_kun_readings` -/

/-- The grouping invariant `find_kun_readings` relies on: every group that
contains a kanji-form row also contains a kana-form row. -/
def groups_have_kana (gs : List (List Dict)) : Prop :=
  ∀ g ∈ gs, (∃ d ∈ g, d.kanji = true) → ∃ d ∈ g, d.kanji = false

instance (gs : List (List Dict)) : Decidable (groups_have_kana gs) := by
  unfold groups_have_kana; infer_instance

theorem groupsStep_isSome (literal : Str) (kun : List Str) :
    ∀ gs : List (List Dict), groups_have_kana gs →
      (groupsStep literal kun gs).isSome = true := by
  intro gs
  induction gs with
  | nil => intro _; simp [groupsStep]
  | cons g gs ih =>
    intro h
    have hrest : groups_have_kana gs := fun g' hmem => h g' (by simp [hmem])
    have hrec := ih hrest
    unfold groupsStep
    cases hk : g.filter (fun d => d.kanji) with
    | nil => simp only [groupsStep] at hrec ⊢; exact hrec
    | cons dict_kanji tl =>
      have hkanji : ∃ d ∈ g, d.kanji = true := by
        have hmem : dict_kanji ∈ g.filter (fun d => d.kanji) := by rw [hk]; simp
        rcases List.mem_filter.mp hmem with ⟨h1, h2⟩
        exact ⟨dict_kanji, h1, h2⟩
      rcases h g (by simp) hkanji with ⟨dkn, hdmem, hdk⟩
      have hmemf : dkn ∈ g.filter (fun d => !d.kanji) :=
        List.mem_filter.mpr ⟨hdmem, by simp [hdk]⟩
      cases hka : g.filter (fun d => !d.kanji) with
      | nil => rw [hka] at hmemf; simp at hmemf
      | cons dict_kana tl2 =>
        cases hgs : groupsStep literal kun gs with
        | none => rw [hgs] at hrec; simp at hrec
        | some rest =>
          simp only []
          split <;> simp

/-- C10: under the precondition that every sequence-id group containing a
kanji-form row also contains a kana-form row, `find_kun_readings` evaluates
without the `kana_r[0]` out-of-bounds access; the precondition is necessary —
on an input whose only group consists of a single kanji-form row, evaluation
panics (`none`). -/
theorem c10_find_kun_totality :
    (∀ (tok : Option (Str → Nat)) (dicts : List Dict) (literal : Str)
       (kun : List Str) (cache : Cache),
       groups_have_kana (seqGroups (assembleDicts dicts literal cache)) →
       (find_kun_readings tok dicts literal kun cache).isSome = true)
  ∧ find_kun_readings none [⟨1, 1, "ab".toList, true, none, none⟩]
      "a".toList ["r".toList] [] = none := by
  constructor
  · intro tok dicts literal kun cache h
    have := groupsStep_isSome literal kun (seqGroups (assembleDicts dicts literal cache)) h
    unfold find_kun_readings
    cases hg : groupsStep literal kun (seqGroups (assembleDicts dicts literal cache)) with
    | none => rw [hg] at this; simp at this
    | some kuns => simp
  · rfl

/-- C10 (witness): a concrete dict table satisfying the precondition (the
single group has both a kanji-form and a kana-form row), on which
`find_kun_readings` evaluates successfully. -/
theorem c10_find_kun_totality_witness :
    groups_have_kana (seqGroups (assembleDicts
      [⟨1, 1, "ab".toList, true, none, none⟩, ⟨2, 1, "xy".toList, false, none, none⟩]
      "a".toList [])) ∧
    (find_kun_readings none
      [⟨1, 1, "ab".toList, true, none, none⟩, ⟨2, 1, "xy".toList, false, none, none⟩]
      "a".toList ["r".toList] []).isSome = true :=
  ⟨by decide,
   c10_find_kun_totality.1 none
     [⟨1, 1, "ab".toList, true, none, none⟩, ⟨2, 1, "xy".toList, false, none, none⟩]
     "a".toList ["r".toList] [] (by decide)⟩

/-! ## Claim C4: link-list caps -/

theorem find_kun_readings_len_le {tok : Option (Str → Nat)} {dicts : List Dict}
    {literal : Str} {kun : List Str} {cache cache' : Cache} {ids : List Int}
    (h : find_kun_readings tok dicts literal kun cache = some (ids, cache')) :
    ids.length ≤ 10 := by
  unfold find_kun_readings at h
  cases hg : groupsStep literal kun (seqGroups (assembleDicts dicts literal cache)) with
  | none => rw [hg] at h; cases h
  | some kuns =>
    rw [hg] at h
    simp only [Option.some_inj, Prod.mk.injEq] at h
    rcases h with ⟨hids, _⟩
    subst hids
    split
    · simp only [List.length_map]; exact List.length_take_le 10 _
    · simp only [List.length_map]; omega

theorem kun_phase_len_le (o : Oracle) (dicts : List Dict) :
    ∀ (statics : List KStat) (cache : Cache) (A : List (Int × List Int)),
      kun_phase o dicts statics cache = some A → ∀ p ∈ A, p.2.length ≤ 10 := by
  intro statics
  induction statics with
  | nil =>
    intro cache A h p hp
    simp only [kun_phase, Option.some_inj] at h
    subst h; simp at hp
  | cons s rest ih =>
    intro cache A h p hp
    unfold kun_phase at h
    cases hkun : s.kunyomi with
    | none => simp only [hkun] at h; exact ih cache A h p hp
    | some kuns =>
      simp only [hkun] at h
      by_cases hke : kuns.isEmpty
      · rw [if_pos hke] at h; exact ih cache A h p hp
      · rw [if_neg hke] at h
        cases hf : o.kun_find_fail s.id with
        | some e => simp only [hf] at h; exact ih cache A h p hp
        | none =>
          simp only [hf] at h
          cases hfind : find_kun_readings o.tok dicts s.literal kuns cache with
          | none => simp [hfind] at h
          | some idc =>
            obtain ⟨ids, cache'⟩ := idc
            simp only [hfind] at h
            cases hrec : kun_phase o dicts rest cache' with
            | none => simp [hrec] at h
            | some restres =>
              simp only [hrec] at h
              cases hto : to_option ids with
              | none =>
                simp only [hto, Option.some_inj] at h
                subst h
                exact ih cache' restres hrec p hp
              | some r =>
                simp only [hto, Option.some_inj] at h
                subst h
                rcases List.mem_cons.mp hp with hp1 | hp2
                · subst hp1
                  have hr : r = ids := by
                    unfold to_option at hto
                    split at hto
                    · cases hto
                    · exact (Option.some_inj.mp hto).symm
                  subst hr
                  exact find_kun_readings_len_le hfind
                · exact ih cache' restres hrec p hp2

theorem on_phase_len_le (o : Oracle) :
    ∀ (statics : List KStat) (B : List (Int × List Int)),
      on_phase o statics = .ok B → ∀ p ∈ B, p.2.length ≤ 9 := by
  intro statics
  induction statics with
  | nil =>
    intro B h p hp
    simp only [on_phase] at h
    cases h; simp at hp
  | cons s rest ih =>
    intro B h p hp
    unfold on_phase at h
    cases hon : s.onyomi with
    | none => simp only [hon] at h; exact ih B h p hp
    | some ons =>
      simp only [hon] at h
      by_cases hoe : ons.isEmpty
      · rw [if_pos hoe] at h; exact ih B h p hp
      · rw [if_neg hoe] at h
        cases hf : o.on_find_fail s.id with
        | some e => simp [hf] at h
        | none =>
          simp only [hf] at h
          by_cases hfe : ((ons.map (fun onr => o.on_find s.literal onr)).flatten).isEmpty
          · rw [if_pos hfe] at h; exact ih B h p hp
          · rw [if_neg hfe] at h
            cases hu : o.update_on_fail s.id with
            | some e => simp [hu] at h
            | none =>
              simp only [hu] at h
              cases hrec : on_phase o rest with
              | error e => simp [hrec] at h
              | ok r =>
                simp only [hrec, Except.ok.injEq] at h
                subst h
                rcases List.mem_cons.mp hp with hp1 | hp2
                · subst hp1; simp only []; exact List.length_take_le 9 _
                · exact ih r hrec p hp2

theorem lookupLinks_mem {l : List (Int × List Int)} {i : Int} {ids : List Int}
    (h : lookupLinks l i = some ids) : ∃ p ∈ l, p.2 = ids := by
  unfold lookupLinks at h
  cases hf : l.find? (fun p => p.1 = i) with
  | none => rw [hf] at h; cases h
  | some p =>
    rw [hf] at h
    simp only [Option.map] at h
    exact ⟨p, List.mem_of_find?_eq_some hf, Option.some_inj.mp h⟩

/-- C4: after any successful rebuild run, every kanji row's kun-link list has
length at most 10 and its on-link list has length at most 9. -/
theorem c4_link_caps (o : Oracle) (db db' : DB)
    (h : update_links o db = .ok db') :
    ∀ k ∈ db'.kanji_rows,
      (k.kun_dicts.getD []).length ≤ 10 ∧ (k.on_dicts.getD []).length ≤ 9 := by
  unfold update_links at h
  cases hc : o.clear_fail with
  | some e => simp [hc] at h
  | none =>
  simp only [hc] at h
  cases hs : o.select_fail with
  | some e => simp [hs] at h
  | none =>
  simp only [hs] at h
  cases hk : kun_phase o db.dict_rows (kanji_statics db) [] with
  | none => simp [hk] at h
  | some A =>
  simp only [hk] at h
  cases hu : first_update_kun_fail o A with
  | some e => simp [hu] at h
  | none =>
  simp only [hu] at h
  cases hb : on_phase o (kanji_statics db) with
  | error e => simp [hb] at h
  | ok B =>
  simp only [hb, RunResult.ok.injEq] at h
  subst h
  intro k hkmem
  simp only [apply_links, List.mem_map] at hkmem
  rcases hkmem with ⟨k0, _, rfl⟩
  constructor
  · cases hl : lookupLinks A k0.id with
    | none => simp [hl]
    | some ids =>
      rcases lookupLinks_mem hl with ⟨p, hpmem, hpe⟩
      have hlen := kun_phase_len_le o db.dict_rows (kanji_statics db) [] A hk p hpmem
      simp only [hl, Option.getD_some]
      exact hpe ▸ hlen
  · cases hl : lookupLinks B k0.id with
    | none => simp [hl]
    | some ids =>
      rcases lookupLinks_mem hl with ⟨p, hpmem, hpe⟩
      have hlen := on_phase_len_le o (kanji_statics db) B hb p hpmem
      simp only [hl, Option.getD_some]
      exact hpe ▸ hlen

/-- A failure-free oracle whose on-reading lookup finds nothing. -/
def o0 : Oracle :=
  { clear_fail := none, select_fail := none,
    kun_find_fail := fun _ => none, update_kun_fail := fun _ => none,
    on_find := fun _ _ => [], on_find_fail := fun _ => none,
    update_on_fail := fun _ => none, tok := none }

/-- A one-kanji storage state with an empty dict table. -/
def db0 : DB :=
  { kanji_rows := [⟨1, "a".toList, some ["x".toList], none, none, none⟩],
    dict_rows := [] }

/-- C4 (witness): the caps at the concrete run `update_links o0 db0`. -/
theorem c4_link_caps_witness :
    (((⟨1, "a".toList, some ["x".toList], none, none, none⟩ : KanjiRow).kun_dicts.getD
        []).length ≤ 10)
  ∧ (((⟨1, "a".toList, some ["x".toList], none, none, none⟩ : KanjiRow).on_dicts.getD
        []).length ≤ 9) :=
  c4_link_caps o0 db0 db0 (by decide)
    ⟨1, "a".toList, some ["x".toList], none, none, none⟩ (by simp [db0])

/-! ## Claim C2: failure semantics of `update_links` -/

/-- An oracle whose only injected failure is the kun-candidate lookup of the
kanji with id 1. -/
def o_kunfail : Oracle :=
  { o0 with kun_find_fail := fun i => if i = 1 then some (Error.DbError 7) else none }

/-- An oracle whose only injected failure is the initial link clearing. -/
def o_clearfail : Oracle := { o0 with clear_fail := some (Error.DbError 3) }

/-- C2 (counterexample): a storage failure *during the kun-candidate lookup
of an individual kanji* does not abort the rebuild: with the lookup for kanji
id 1 failing, `update_links` still completes with `ok` (the claim demands
`err (DbError 7)` here). -/
theorem c2_swallow_counterexample :
    o_kunfail.kun_find_fail 1 = some (Error.DbError 7) ∧
    update_links o_kunfail db0 = RunResult.ok db0 := by
  refine ⟨rfl, by decide⟩

/-- C2 (amended): a storage failure in the initial link clearing, the kanji
select, a kun-link update or anywhere in the on-reading phase aborts the
rebuild and propagates the error unmodified; a storage failure while looking
up the kun-reading candidates of an individual kanji is instead swallowed —
that kanji contributes no link entry and the run continues — and a kanji
yielding zero candidates is not an error and ends up with an empty (cleared)
kun-link list. -/
theorem c2_failure_semantics :
    (∀ (o : Oracle) (db : DB) (e : Error),
       o.clear_fail = some e → update_links o db = .err e)
  ∧ (∀ (o : Oracle) (db : DB) (e : Error),
       o.clear_fail = none → o.select_fail = some e → update_links o db = .err e)
  ∧ (∀ (o : Oracle) (db : DB) (e : Error) (A : List (Int × List Int)),
       o.clear_fail = none → o.select_fail = none →
       kun_phase o db.dict_rows (kanji_statics db) [] = some A →
       first_update_kun_fail o A = some e → update_links o db = .err e)
  ∧ (∀ (o : Oracle) (db : DB) (e : Error) (A : List (Int × List Int)),
       o.clear_fail = none → o.select_fail = none →
       kun_phase o db.dict_rows (kanji_statics db) [] = some A →
       first_update_kun_fail o A = none →
       on_phase o (kanji_statics db) = .error e → update_links o db = .err e)
  ∧ (∀ (o : Oracle) (dicts : List Dict) (s : KStat) (rest : List KStat)
       (cache : Cache) (kuns : List Str) (e : Error),
       s.kunyomi = some kuns → kuns ≠ [] → o.kun_find_fail s.id = some e →
       kun_phase o dicts (s :: rest) cache = kun_phase o dicts rest cache)
  ∧ (∀ (o : Oracle) (dicts : List Dict) (s : KStat) (rest : List KStat)
       (cache cache' : Cache) (kuns : List Str),
       s.kunyomi = some kuns → kuns ≠ [] → o.kun_find_fail s.id = none →
       find_kun_readings o.tok dicts s.literal kuns cache = some ([], cache') →
       kun_phase o dicts (s :: rest) cache = kun_phase o dicts rest cache')
  ∧ (∀ (A B : List (Int × List Int)) (db : DB) (i : Int),
       (∀ p ∈ A, p.1 ≠ i) →
       ∀ k ∈ (apply_links A B db).kanji_rows, k.id = i → k.kun_dicts = none) := by
  refine ⟨?_, ?_, ?_, ?_, ?_, ?_, ?_⟩
  · intro o db e hc
    unfold update_links
    rw [hc]
  · intro o db e hc hs
    unfold update_links
    rw [hc, hs]
  · intro o db e A hc hs hk hu
    unfold update_links
    simp only [hc, hs, hk, hu]
  · intro o db e A hc hs hk hu hb
    unfold update_links
    simp only [hc, hs, hk, hu, hb]
  · intro o dicts s rest cache kuns e hkun hne hf
    have hke : kuns.isEmpty = false := by
      cases kuns with
      | nil => exact absurd rfl hne
      | cons x xs => rfl
    simp only [kun_phase, hkun, hke, hf, Bool.false_eq_true, if_false]
  · intro o dicts s rest cache cache' kuns hkun hne hf hfind
    have hke : kuns.isEmpty = false := by
      cases kuns with
      | nil => exact absurd rfl hne
      | cons x xs => rfl
    simp only [kun_phase, hkun, hke, hf, hfind, Bool.false_eq_true, if_false,
      to_option, List.isEmpty_nil, if_true]
    cases kun_phase o dicts rest cache' <;> rfl
  · intro A B db i hA k hk hid
    simp only [apply_links, List.mem_map] at hk
    rcases hk with ⟨k0, _, rfl⟩
    simp only at hid ⊢
    unfold lookupLinks
    cases hf : A.find? (fun p => p.1 = k0.id) with
    | none => rfl
    | some p =>
      have hmem := List.mem_of_find?_eq_some hf
      have hprop := List.find?_some hf
      simp only [decide_eq_true_eq] at hprop
      exact absurd (hprop.trans hid) (hA p hmem)

/-- C2 (witness): the amended statement's first conjunct at a concrete run —
a failing link clearing propagates its error unmodified. -/
theorem c2_failure_semantics_witness :
    update_links o_clearfail db0 = RunResult.err (Error.DbError 3) :=
  c2_failure_semantics.1 o_clearfail db0 (Error.DbError 3) rfl

/-! ## Claim C3: idempotence of the rebuild -/

theorem kanji_statics_apply (A B : List (Int × List Int)) (db : DB) :
    kanji_statics (apply_links A B db) = kanji_statics db := by
  simp only [kanji_statics, apply_links, List.map_map]
  rfl

theorem apply_links_apply (A B A' B' : List (Int × List Int)) (db : DB) :
    apply_links A B (apply_links A' B' db) = apply_links A B db := by
  simp only [apply_links, List.map_map]
  rfl

/-- C3: a successful rebuild is idempotent — its result is a fixpoint, so a
second run over the unchanged dictionary snapshot reproduces exactly the same
link lists. -/
theorem c3_idempotent (o : Oracle) (db db' : DB)
    (h : update_links o db = .ok db') : update_links o db' = .ok db' := by
  unfold update_links at h ⊢
  cases hc : o.clear_fail with
  | some e => simp [hc] at h
  | none =>
  simp only [hc] at h ⊢
  cases hs : o.select_fail with
  | some e => simp [hs] at h
  | none =>
  simp only [hs] at h ⊢
  cases hk : kun_phase o db.dict_rows (kanji_statics db) [] with
  | none => simp [hk] at h
  | some A =>
  simp only [hk] at h
  cases hu : first_update_kun_fail o A with
  | some e => simp [hu] at h
  | none =>
  simp only [hu] at h
  cases hb : on_phase o (kanji_statics db) with
  | error e => simp [hb] at h
  | ok B =>
  simp only [hb, RunResult.ok.injEq] at h
  subst h
  rw [kanji_statics_apply]
  have hdict : (apply_links A B db).dict_rows = db.dict_rows := rfl
  rw [hdict]
  simp only [hk, hu, hb]
  rw [apply_links_apply]

/-- C3 (witness): idempotence at the concrete run `update_links o0 db0`. -/
theorem c3_idempotent_witness : update_links o0 db0 = RunResult.ok db0 :=
  c3_idempotent o0 db0 db0 (by decide)

/-! ## Claim C6: narrow-search widening -/

/-- C6: when the first-pass narrow lookup returns at most 2 sequence ids, the
search repeats the lookup with `Variable` mode and the first-pass-only flag
lifted; an empty widened result transitions to the alternative search rather
than surfacing an error, and a non-empty widened result is the one loaded and
ranked. -/
theorem c6_widening (ctx : SearchCtx) (r : KanjiReading) (k : KanjiRec)
    (t : ReadingType) (ids ids2 : List Int)
    (hq : ctx.as_kanji_reading = some r)
    (hk : ctx.find_by_literal = .ok k)
    (ht : get_reading_type k r.reading = some t)
    (hr : has_reading k r.reading = true)
    (h1 : ctx.find_readings t (narrow_mode r.reading) true = .ok ids)
    (hle : ids.length ≤ 2)
    (h2 : ctx.find_readings t SearchMode.Variable false = .ok ids2) :
    (ids2 = [] → by_reading ctx = ctx.alternative)
  ∧ (ids2 ≠ [] → by_reading ctx = load_and_rank ctx ids2) := by
  unfold by_reading
  simp only [hq, hk, ht, hr, Bool.not_true, Bool.false_eq_true, if_false, h1,
    if_pos hle, h2]
  constructor
  · intro he
    subst he
    simp
  · intro hne
    have : ids2.isEmpty = false := by
      cases ids2 with
      | nil => exact absurd rfl hne
      | cons x xs => rfl
    rw [this]
    simp

/-- A search context whose narrow lookup finds one id and whose widened
lookup finds none. -/
def ctx6 : SearchCtx :=
  { as_kanji_reading := some ⟨"a".toList, "r".toList⟩,
    find_by_literal := .ok ⟨"a".toList, ["r".toList], []⟩,
    find_readings := fun _ m _ => if m = SearchMode.Variable then .ok [] else .ok [5],
    load_words := fun _ => .ok [],
    rank_cmp := fun _ _ => .eq,
    alternative := .ok {} }

/-- C6 (witness): the widening behaviour at the concrete context `ctx6`. -/
theorem c6_widening_witness : by_reading ctx6 = ctx6.alternative :=
  (c6_widening ctx6 ⟨"a".toList, "r".toList⟩ ⟨"a".toList, ["r".toList], []⟩
      ReadingType.Kunyomi [5] [] rfl rfl rfl rfl rfl (by decide) rfl).1 rfl

/-! ## Claim C7: the LoadAndRank result shape -/

/-- C7: once the search reaches LoadAndRank with a non-empty id list, the
result is `ok`, its word list is the ranked list truncated to at most 10
records, its count equals the number of loaded words before truncation, and
every other result field is its default empty value. -/
theorem c7_result_shape (ctx : SearchCtx) (r : KanjiReading) (k : KanjiRec)
    (t : ReadingType) (first_ids seq_ids : List Int) (w : List Word)
    (hq : ctx.as_kanji_reading = some r)
    (hk : ctx.find_by_literal = .ok k)
    (ht : get_reading_type k r.reading = some t)
    (hr : has_reading k r.reading = true)
    (h1 : ctx.find_readings t (narrow_mode r.reading) true = .ok first_ids)
    (h2 : (if first_ids.length ≤ 2 then ctx.find_readings t SearchMode.Variable false
           else Except.ok first_ids) = .ok seq_ids)
    (hne : seq_ids ≠ [])
    (hw : ctx.load_words seq_ids = .ok w) :
    by_reading ctx =
      .ok { words := (sort_by ctx.rank_cmp w).take 10, count := w.length }
  ∧ ((sort_by ctx.rank_cmp w).take 10).length ≤ 10
  ∧ ResultData.other_fields
      { words := (sort_by ctx.rank_cmp w).take 10, count := w.length } = [] := by
  refine ⟨?_, List.length_take_le _ _, rfl⟩
  unfold by_reading
  simp only [hq, hk, ht, hr, Bool.not_true, Bool.false_eq_true, if_false, h1, h2]
  have hemp : seq_ids.isEmpty = false := by
    cases seq_ids with
    | nil => exact absurd rfl hne
    | cons x xs => rfl
  rw [hemp]
  simp only [Bool.false_eq_true, if_false]
  unfold load_and_rank
  simp only [hw]
  rw [sort_by_length]

/-- Two concrete loaded words. -/
def w_a : Word := ⟨⟨none⟩⟩

/-- A concrete word carrying a kanji-form row. -/
def w_b : Word := ⟨⟨some ⟨5, 5, "x".toList, true, none, none⟩⟩⟩

/-- A search context whose narrow lookup already finds three ids. -/
def ctx7 : SearchCtx :=
  { ctx6 with
    find_readings := fun _ _ _ => .ok [1, 2, 3],
    load_words := fun _ => .ok [w_a, w_b] }

/-- C7 (witness): the result shape at the concrete context `ctx7`. -/
theorem c7_result_shape_witness :
    by_reading ctx7 = .ok { words := [w_a, w_b], count := 2, other_fields := [] } :=
  (c7_result_shape ctx7 ⟨"a".toList, "r".toList⟩ ⟨"a".toList, ["r".toList], []⟩
      ReadingType.Kunyomi [1, 2, 3] [1, 2, 3] [w_a, w_b]
      rfl rfl rfl rfl rfl rfl (by decide) rfl).1

/-! ## Claim C8: `load_word_kanji_info` deduplication and cap -/

theorem remove_dups_go_spec [DecidableEq α] (l : List α) :
    ∀ seen : List α,
      (remove_dups.go seen l).Nodup ∧ ∀ x ∈ remove_dups.go seen l, x ∉ seen := by
  induction l with
  | nil =>
    intro seen
    exact ⟨List.nodup_nil, by intro x hx; simp [remove_dups.go] at hx⟩
  | cons x xs ih =>
    intro seen
    unfold remove_dups.go
    by_cases hx : x ∈ seen
    · rw [if_pos hx]
      exact ih seen
    · rw [if_neg hx]
      refine ⟨?_, ?_⟩
      · rw [List.nodup_cons]
        refine ⟨?_, (ih (x :: seen)).1⟩
        intro hmem
        exact (ih (x :: seen)).2 x hmem (List.mem_cons_self x seen)
      · intro y hy
        rcases List.mem_cons.mp hy with rfl | hy2
        · exact hx
        · intro hys
          exact (ih (x :: seen)).2 y hy2 (List.mem_cons_of_mem x hys)

theorem remove_dups_nodup [DecidableEq α] (l : List α) : (remove_dups l).Nodup :=
  (remove_dups_go_spec l []).1

/-- C8: on a word list with at least one kanji-bearing word (and all loads
succeeding), `load_word_kanji_info` returns the deduplicated loaded kanji
list truncated to the larger of the first kanji-bearing word's kanji count
and the word count; the result has no duplicates and deduplication happens
before the cap is applied. -/
theorem c8_kanji_info (ctx : KanjiInfoCtx) (words : List Word) (kw : Dict)
    (kws : List Dict) (rss : List (List KanjiResult))
    (hkw : get_kanji_words words = kw :: kws)
    (hload : List.mapM (fun d => ctx.load_kanji_info d) (kw :: kws) = .ok rss) :
    load_word_kanji_info ctx words =
      .ok ((remove_dups rss.flatten).take
            (max (JpStr.kanji_count kw.reading) words.length))
  ∧ ((remove_dups rss.flatten).take
      (max (JpStr.kanji_count kw.reading) words.length)).Nodup
  ∧ ((remove_dups rss.flatten).take
      (max (JpStr.kanji_count kw.reading) words.length)).length
      ≤ max (JpStr.kanji_count kw.reading) words.length := by
  refine ⟨?_, ?_, List.length_take_le _ _⟩
  · unfold load_word_kanji_info
    rw [hkw]
    simp only [List.isEmpty_cons, Bool.not_false, if_true, hload, Except.map]
    have hmax : (if JpStr.kanji_count kw.reading > words.length
        then JpStr.kanji_count kw.reading else words.length) =
        max (JpStr.kanji_count kw.reading) words.length := by
      split <;> omega
    rw [hmax]
  · exact List.Sublist.nodup (List.take_sublist _ _) (remove_dups_nodup _)

/-- A concrete kanji-form row whose reading has no kanji characters. -/
def dk0 : Dict := ⟨9, 9, "x".toList, true, none, none⟩

/-- A kanji-info context whose loader returns a duplicated list. -/
def ctx8 : KanjiInfoCtx :=
  { query := [],
    load_kanji_info := fun _ => .ok [⟨1⟩, ⟨2⟩, ⟨1⟩],
    find_by_literal_char := fun _ => .ok ⟨0⟩ }

/-- C8 (witness): at one kanji-bearing word the loader's duplicated list
`[1, 2, 1]` is deduplicated to `[1, 2]` and then capped at
`max 0 1 = 1`, giving `[1]`. -/
theorem c8_kanji_info_witness :
    load_word_kanji_info ctx8 [⟨⟨some dk0⟩⟩] = .ok [⟨1⟩] :=
  (c8_kanji_info ctx8 [⟨⟨some dk0⟩⟩] dk0 [] [[⟨1⟩, ⟨2⟩, ⟨1⟩]] rfl rfl).1

end Jotoba
